import Mathlib

/-!
Verification development for an ESP32 polyphonic chord synthesizer.

The embedding below translates the synthesizer's audio core into Lean:

* `Chord`, the chord library constants and the jazz progression
  (ChordLibrary.h);
* `Oscillator` with its four lookup tables and `Oscillator.getSample`
  (Oscillator.h); the sine table entries come from `sinf` and are kept as a
  parameter of `buildTables`, the triangle / square / sawtooth entries are
  computed exactly from the source formulas;
* `UnisonConfig` with `setUnisonCount`, `setBaseDetuneCents`,
  `recalculateRatios` and `centsToRatio` (UnisonConfig.h, the variant with a
  configurable base detune, which is the one the claims cite);
* `ChordPlayerState` with `setChord`, `setChordFromProgression`,
  `calculatePhaseIncrements`, `getNextSample`, `resetPlayer` and the accessors
  (ChordPlayer.h, the unison-capable variant with up to 12 voices);
* `progressionStep`, the chord-advance step of the audio task
  (audio-visualizer.ino).

Modelling conventions: C++ `float` arithmetic is embedded as exact `ℚ`/`ℝ`
arithmetic (every property proved here has ample numeric margin); C pointers
become `Option`; the `int32_t` mixing accumulator is `ℤ` together with explicit
bounds; the `(int16_t)` conversion is `toInt16`, reduction into
`[-32768, 32767]` modulo `2^16`.  The oscillator method `getSampleScaled`,
which `ChordPlayer::getNextSample` calls, is not part of the provided sources;
following the claim's own precondition it is abstracted as a function
`g : ℤ → ℤ → ℤ` (index, requested amplitude bound) hypothesised to respect the
requested bound.
-/

/-- Chord record from ChordLibrary.h: display name, three note frequencies
(in Hz, embedded as exact rationals), and a description string. -/
structure Chord where
  name : String
  note1 : ℚ
  note2 : ℚ
  note3 : ℚ
  description : String
deriving DecidableEq, Repr

/-- ChordLib::CM7 : C4 + Eb5 + Bb5. -/
def CM7 : Chord := ⟨"Cm7", 261.63, 622.25, 932.33, "C4 + Eb5 + Bb5 (wide voicing)"⟩

/-- ChordLib::EBMAJ7 : Eb5 + G5 + D6. -/
def EBMAJ7 : Chord := ⟨"Ebmaj7", 622.25, 783.99, 1174.66, "Eb5 + G5 + D6"⟩

/-- ChordLib::ABMAJ7 : Ab5 + C6 + G6. -/
def ABMAJ7 : Chord := ⟨"Abmaj7", 830.61, 1046.50, 1567.98, "Ab5 + C6 + G6"⟩

/-- ChordLib::GMAJ7 : G4 + B5 + Gb6. -/
def GMAJ7 : Chord := ⟨"Gmaj7", 392.00, 987.77, 1479.98, "G4 + B5 + F#6"⟩

/-- ChordLib::DM7 : D4 + F5 + C6. -/
def DM7 : Chord := ⟨"Dm7", 293.66, 698.46, 1046.50, "D4 + F5 + C6"⟩

/-- ChordLib::FMAJ7 : F4 + A5 + E6. -/
def FMAJ7 : Chord := ⟨"Fmaj7", 349.23, 880.00, 1318.51, "F4 + A5 + E6"⟩

/-- All chords defined in ChordLibrary.h. -/
def chordLibrary : List Chord := [CM7, EBMAJ7, ABMAJ7, GMAJ7, DM7, FMAJ7]

/-- ChordLib::JAZZ_PROGRESSION_1 : {&EBMAJ7, &CM7, &ABMAJ7, &ABMAJ7}. -/
def JAZZ_PROGRESSION_1 : List Chord := [EBMAJ7, CM7, ABMAJ7, ABMAJ7]

/-- ChordLib::JAZZ_PROGRESSION_1_LENGTH. -/
def JAZZ_PROGRESSION_1_LENGTH : ℤ := 4

/-- A C array of chord pointers, as an index-to-optional-chord map: in-bounds
indices yield the stored pointer, anything else is not dereferenceable. -/
def listToProgression (l : List Chord) : ℤ → Option Chord :=
  fun k => if k < 0 then none else l.get? k.toNat

/-- Waveform selector enum from Oscillator.h. -/
inductive OscillatorType where
  | OSC_SINE
  | OSC_TRIANGLE
  | OSC_SQUARE
  | OSC_SAWTOOTH
deriving DecidableEq, Repr

/-- Oscillator state from Oscillator.h: the four 256-entry signed-16-bit
lookup tables (modelled as functions on the index) and the current type. -/
structure Oscillator where
  sineTable : ℕ → ℤ
  triangleTable : ℕ → ℤ
  squareTable : ℕ → ℤ
  sawtoothTable : ℕ → ℤ
  currentType : OscillatorType

/-- Truncation toward zero of a rational, the behaviour of the C cast
`(int16_t)` applied to an in-range float value. -/
def ratTruncToInt (x : ℚ) : ℤ := if 0 ≤ x then ⌊x⌋ else ⌈x⌉

/-- Oscillator::buildTables.  The triangle, square and sawtooth entries follow
the source formulas exactly (the float arithmetic involved is exact: all
intermediate values are binary fractions well within float precision); the sine
entries, produced by the transcendental `sinf`, are supplied as a parameter. -/
def buildTables (sineTab : ℕ → ℤ) (t : OscillatorType) : Oscillator :=
  { sineTable := sineTab
    triangleTable := fun i =>
      ratTruncToInt ((if i < 128 then (4 * i : ℚ) / 256 - 1 else 3 - (4 * i : ℚ) / 256) * 14000)
    squareTable := fun i => if i < 128 then 14000 else -14000
    sawtoothTable := fun i => ratTruncToInt (((2 * i : ℚ) / 256 - 1) * 14000)
    currentType := t }

/-- Oscillator::getSample(type, index): zero for negative or out-of-range
indices, otherwise the entry of the selected table. -/
def Oscillator.getSample (osc : Oscillator) (type : OscillatorType) (index : ℤ) : ℤ :=
  if index < 0 ∨ 256 ≤ index then 0
  else
    match type with
    | .OSC_SINE => osc.sineTable index.toNat
    | .OSC_TRIANGLE => osc.triangleTable index.toNat
    | .OSC_SQUARE => osc.squareTable index.toNat
    | .OSC_SAWTOOTH => osc.sawtoothTable index.toNat

/-- The raw lookup table belonging to a waveform shape. -/
def oscTableOf (osc : Oscillator) (type : OscillatorType) : ℕ → ℤ :=
  match type with
  | .OSC_SINE => osc.sineTable
  | .OSC_TRIANGLE => osc.triangleTable
  | .OSC_SQUARE => osc.squareTable
  | .OSC_SAWTOOTH => osc.sawtoothTable

/-- Pointwise update of an array modelled as a function. -/
def updateAt {α : Type} (f : ℕ → α) (i : ℕ) (v : α) : ℕ → α :=
  fun j => if j = i then v else f j

/-- UnisonConfig state: voice count, base detune in cents, and the 4-slot
ratio array (slots at or beyond the count keep stale values, as in the C
fixed-size array). -/
structure UnisonConfig where
  unisonCount : ℕ
  baseDetuneCents : ℚ
  detuneRatios : ℕ → ℝ

/-- UnisonConfig::centsToRatio: 2^(cents/1200). -/
noncomputable def centsToRatio (cents : ℚ) : ℝ := (2 : ℝ) ^ ((cents : ℝ) / 1200)

/-- UnisonConfig::recalculateRatios: rewrites the first `unisonCount` slots of
the ratio array according to the detune pattern for the current count; any
other count writes nothing (the C switch has no default case). -/
noncomputable def recalculateRatios (u : UnisonConfig) : UnisonConfig :=
  match u.unisonCount with
  | 1 => { u with detuneRatios := updateAt u.detuneRatios 0 1 }
  | 2 =>
      { u with
          detuneRatios :=
            updateAt (updateAt u.detuneRatios 0 (centsToRatio (-u.baseDetuneCents)))
              1 (centsToRatio u.baseDetuneCents) }
  | 3 =>
      { u with
          detuneRatios :=
            updateAt (updateAt (updateAt u.detuneRatios 0 (centsToRatio (-u.baseDetuneCents)))
              1 1) 2 (centsToRatio u.baseDetuneCents) }
  | 4 =>
      { u with
          detuneRatios :=
            updateAt (updateAt (updateAt (updateAt u.detuneRatios
              0 (centsToRatio (-(3 / 2 * u.baseDetuneCents))))
              1 (centsToRatio (-(1 / 2 * u.baseDetuneCents))))
              2 (centsToRatio (1 / 2 * u.baseDetuneCents)))
              3 (centsToRatio (3 / 2 * u.baseDetuneCents)) }
  | _ => u

/-- UnisonConfig constructor: one voice, 7 cents base detune, then
recalculateRatios; the array contents before the recalculation are
indeterminate in C and modelled as zeros. -/
noncomputable def initUnisonConfig : UnisonConfig :=
  recalculateRatios { unisonCount := 1, baseDetuneCents := 7, detuneRatios := fun _ => 0 }

/-- The clamping of setUnisonCount's argument into [1,4]. -/
def clampCount (count : ℤ) : ℤ :=
  if count < 1 then 1 else if 4 < count then 4 else count

/-- UnisonConfig::setUnisonCount: clamp to [1,4]; recompute the ratios only
when the clamped count differs from the stored one.  The C function returns
void. -/
noncomputable def setUnisonCount (u : UnisonConfig) (count : ℤ) : UnisonConfig :=
  if clampCount count = (u.unisonCount : ℤ) then u
  else recalculateRatios { u with unisonCount := (clampCount count).toNat }

/-- The value returned by UnisonConfig::setUnisonCount — the function is
`void`, so the returned value is the unit value, for every input. -/
def setUnisonCountRet (_u : UnisonConfig) (_count : ℤ) : Unit := ()

/-- The clamping of setBaseDetuneCents's argument into [0,50]. -/
def clampDetune (cents : ℚ) : ℚ :=
  if cents < 0 then 0 else if 50 < cents then 50 else cents

/-- UnisonConfig::setBaseDetuneCents: clamp to [0,50]; if the clamped value is
within 0.001 of the stored one return false without touching anything,
otherwise store it, recompute the ratios and return true. -/
noncomputable def setBaseDetuneCents (u : UnisonConfig) (cents : ℚ) : UnisonConfig × Bool :=
  if |clampDetune cents - u.baseDetuneCents| < 0.001 then (u, false)
  else (recalculateRatios { u with baseDetuneCents := clampDetune cents }, true)

/-- The meaningful prefix of the ratio array: the first `unisonCount` slots,
which are exactly the ones `getDetuneRatios` callers may read. -/
noncomputable def activeRatios (u : UnisonConfig) : List ℝ :=
  (List.range u.unisonCount).map u.detuneRatios

/-- The detune offset pattern (in cents) documented for each voice count:
{0}, {-d,+d}, {-d,0,+d}, {-1.5d,-0.5d,+0.5d,+1.5d}. -/
def offsetsCents : ℕ → ℚ → List ℚ
  | 1, _ => [0]
  | 2, b => [-b, b]
  | 3, b => [-b, 0, b]
  | 4, b => [-(3 / 2 * b), -(1 / 2 * b), 1 / 2 * b, 3 / 2 * b]
  | _, _ => []

/-- The UnisonConfig states reachable through its public interface. -/
inductive UCReachable : UnisonConfig → Prop where
  | init : UCReachable initUnisonConfig
  | count (u : UnisonConfig) (n : ℤ) : UCReachable u → UCReachable (setUnisonCount u n)
  | detune (u : UnisonConfig) (c : ℚ) :
      UCReachable u → UCReachable (setBaseDetuneCents u c).1

/-- ChordPlayer state (unison-capable variant): oscillator and unison-config
references, current chord pointer, 12-slot phase and phase-increment arrays,
and the stored sample rate. -/
structure ChordPlayerState where
  hasOscillator : Bool
  unisonConfig : Option UnisonConfig
  currentChord : Option Chord
  phases : ℕ → ℝ
  phaseIncrements : ℕ → ℝ
  storedSampleRate : ℝ

/-- The `baseFreqs` array of ChordPlayer::calculatePhaseIncrements: note
frequencies of the current chord, indexed 0..2. -/
def chordBaseFreq (ch : Chord) : ℕ → ℚ
  | 0 => ch.note1
  | 1 => ch.note2
  | _ => ch.note3

/-- ChordPlayer::calculatePhaseIncrements: with a non-null chord and unison
config, voice `v = note*unisonCount + unison` (for `v < 3*unisonCount`) gets
increment `(TABLE_SIZE * (baseFreq * ratio)) / storedSampleRate`; other slots
keep their old values; with a null chord or config nothing changes. -/
noncomputable def calculatePhaseIncrements (s : ChordPlayerState) : ChordPlayerState :=
  match s.currentChord, s.unisonConfig with
  | some ch, some u =>
      { s with phaseIncrements := fun v =>
          if v < 3 * u.unisonCount then
            256 * ((chordBaseFreq ch (v / u.unisonCount) : ℝ) * u.detuneRatios (v % u.unisonCount))
              / s.storedSampleRate
          else s.phaseIncrements v }
  | _, _ => s

/-- ChordPlayer constructor: null oscillator and config references, current
chord Cm7, all phases and increments zero, sample rate 44100. -/
noncomputable def initChordPlayer : ChordPlayerState :=
  { hasOscillator := false, unisonConfig := none, currentChord := some CM7,
    phases := fun _ => 0, phaseIncrements := fun _ => 0, storedSampleRate := 44100 }

/-- ChordPlayer::setOscillator: records whether the shared oscillator
reference is non-null. -/
noncomputable def setOscillator (s : ChordPlayerState) (present : Bool) : ChordPlayerState :=
  { s with hasOscillator := present }

/-- ChordPlayer::setUnisonConfig: store the reference and recalculate. -/
noncomputable def setUnisonConfigRef (s : ChordPlayerState) (cfg : Option UnisonConfig) : ChordPlayerState :=
  calculatePhaseIncrements { s with unisonConfig := cfg }

/-- ChordPlayer::init: store the sample rate and recalculate. -/
noncomputable def initPlayer (s : ChordPlayerState) (rate : ℝ) : ChordPlayerState :=
  calculatePhaseIncrements { s with storedSampleRate := rate }

/-- ChordPlayer::setChord: with a non-null argument, switch the chord pointer
and recalculate the phase increments; a null argument does nothing. -/
noncomputable def setChord (s : ChordPlayerState) (chord : Option Chord) : ChordPlayerState :=
  match chord with
  | some ch => calculatePhaseIncrements { s with currentChord := some ch }
  | none => s

/-- ChordPlayer::recalculatePhaseIncrements (public wrapper). -/
noncomputable def recalculatePhaseIncrementsPub (s : ChordPlayerState) : ChordPlayerState :=
  calculatePhaseIncrements s

/-- ChordPlayer::setChordFromProgression: bounds-checked lookup followed by
setChord; out-of-range index or null array is a silent no-op. -/
noncomputable def setChordFromProgression (s : ChordPlayerState) (chordIndex : ℤ)
    (progression : Option (ℤ → Option Chord)) (progressionLength : ℤ) : ChordPlayerState :=
  match progression with
  | some p =>
      if 0 ≤ chordIndex ∧ chordIndex < progressionLength then setChord s (p chordIndex) else s
  | none => s

/-- ChordPlayer::reset: zero every phase accumulator. -/
noncomputable def resetPlayer (s : ChordPlayerState) : ChordPlayerState :=
  { s with phases := fun _ => 0 }

/-- ChordPlayer::getMaxAmplitudePerVoice: 14000 divided (integer division) by
the number of active voices, 4666 when the unison config is null. -/
noncomputable def getMaxAmplitudePerVoice (s : ChordPlayerState) : ℤ :=
  match s.unisonConfig with
  | none => 4666
  | some u => ((14000 / (3 * u.unisonCount) : ℕ) : ℤ)

/-- The single-subtraction phase wrap at the top of the mixing loop. -/
noncomputable def wrapPhase (p : ℝ) : ℝ := if 256 ≤ p then p - 256 else p

/-- Truncation toward zero of a real, the behaviour of the C cast `(int)`
applied to an in-range float. -/
noncomputable def realTruncToInt (x : ℝ) : ℤ := if 0 ≤ x then ⌊x⌋ else ⌈x⌉

/-- Conversion of a 32-bit value to `int16_t`: reduction modulo 2^16 into
[-32768, 32767]. -/
def toInt16 (x : ℤ) : ℤ := (x + 32768) % 65536 - 32768

/-- The mixing loop of ChordPlayer::getNextSample over voices `0..count-1`:
wrap the voice's phase, read the scaled sample `g index maxAmp`, add it to the
accumulator, then advance the phase by its increment. -/
noncomputable def mixLoop (g : ℤ → ℤ → ℤ) (maxAmp : ℤ) (incs : ℕ → ℝ) (ph : ℕ → ℝ) :
    ℕ → ℤ × (ℕ → ℝ)
  | 0 => (0, ph)
  | k + 1 =>
      let r := mixLoop g maxAmp incs ph k
      let pw := wrapPhase (r.2 k)
      (r.1 + g (realTruncToInt pw) maxAmp, updateAt r.2 k (pw + incs k))

/-- ChordPlayer::getNextSample: zero and no state change while either shared
reference is null; otherwise run the mixing loop over `3 * unisonCount` voices
with the per-voice amplitude bound, and return the accumulator converted to
`int16_t` together with the advanced phases.  `g` abstracts
`Oscillator::getSampleScaled` (not part of the provided sources). -/
noncomputable def getNextSample (g : ℤ → ℤ → ℤ) (s : ChordPlayerState) : ℤ × ChordPlayerState :=
  if s.hasOscillator = false then (0, s)
  else
    match s.unisonConfig with
    | none => (0, s)
    | some u =>
        let totalVoices := 3 * u.unisonCount
        let maxAmp := getMaxAmplitudePerVoice s
        let r := mixLoop g maxAmp s.phaseIncrements s.phases totalVoices
        (toInt16 r.1, { s with phases := r.2 })

/-- ChordPlayer::getChordName: the chord's name, "???" on a null pointer. -/
noncomputable def getChordName (s : ChordPlayerState) : String :=
  match s.currentChord with
  | some ch => ch.name
  | none => "???"

/-- ChordPlayer::getChordDescription: the description, "No chord" on null. -/
noncomputable def getChordDescription (s : ChordPlayerState) : String :=
  match s.currentChord with
  | some ch => ch.description
  | none => "No chord"

/-- The ChordPlayer states reachable through its public interface. -/
inductive CPReachable : ChordPlayerState → Prop where
  | init : CPReachable initChordPlayer
  | osc (s : ChordPlayerState) (b : Bool) : CPReachable s → CPReachable (setOscillator s b)
  | cfg (s : ChordPlayerState) (c : Option UnisonConfig) :
      CPReachable s → CPReachable (setUnisonConfigRef s c)
  | rate (s : ChordPlayerState) (r : ℝ) : CPReachable s → CPReachable (initPlayer s r)
  | chord (s : ChordPlayerState) (c : Option Chord) : CPReachable s → CPReachable (setChord s c)
  | recalc (s : ChordPlayerState) : CPReachable s → CPReachable (recalculatePhaseIncrementsPub s)
  | prog (s : ChordPlayerState) (i : ℤ) (p : Option (ℤ → Option Chord)) (l : ℤ) :
      CPReachable s → CPReachable (setChordFromProgression s i p l)
  | reset (s : ChordPlayerState) : CPReachable s → CPReachable (resetPlayer s)
  | sample (s : ChordPlayerState) (g : ℤ → ℤ → ℤ) :
      CPReachable s → CPReachable (getNextSample g s).2

/-- The audio task state relevant to progression playback: the progression
index, the wall-clock anchor of the last chord change (ms), and the player. -/
structure SynthState where
  currentChordIndex : ℕ
  lastChordChangeTime : ℕ
  player : ChordPlayerState

/-- CHORD_DURATION_MS, 1.6 seconds (a half note at 75 BPM). -/
def CHORD_DURATION_MS : ℕ := 1600

/-- The chord-advance step executed by audioTask while in PROGRESSION mode:
once the interval has elapsed, increment the index modulo the progression
length, call setChordFromProgression with the new index, and re-anchor the
timer.  `millis()` is monotone, so elapsed time is natural subtraction. -/
noncomputable def progressionStep (currentTime : ℕ) (st : SynthState) : SynthState :=
  if CHORD_DURATION_MS ≤ currentTime - st.lastChordChangeTime then
    let i := (st.currentChordIndex + 1) % 4
    { currentChordIndex := i, lastChordChangeTime := currentTime,
      player := setChordFromProgression st.player (i : ℤ)
        (some (listToProgression JAZZ_PROGRESSION_1)) JAZZ_PROGRESSION_1_LENGTH }
  else st

/-- recalculateRatios only rewrites ratio slots, never the voice count. -/
theorem recalc_unisonCount (u : UnisonConfig) :
    (recalculateRatios u).unisonCount = u.unisonCount := by
  unfold recalculateRatios
  split <;> rfl

/-- recalculateRatios only rewrites ratio slots, never the base detune. -/
theorem recalc_baseDetuneCents (u : UnisonConfig) :
    (recalculateRatios u).baseDetuneCents = u.baseDetuneCents := by
  unfold recalculateRatios
  split <;> rfl

/-- centsToRatio 0 = 1. -/
theorem centsToRatio_zero : centsToRatio 0 = 1 := by
  unfold centsToRatio
  norm_num

/-- centsToRatio is strictly monotone. -/
theorem centsToRatio_strictMono {a b : ℚ} (h : a < b) : centsToRatio a < centsToRatio b := by
  unfold centsToRatio
  have hab : (a : ℝ) / 1200 < (b : ℝ) / 1200 := by
    have : (a : ℝ) < (b : ℝ) := by exact_mod_cast h
    linarith
  exact (Real.rpow_lt_rpow_left_iff one_lt_two).mpr hab

/-- centsToRatio is positive. -/
theorem centsToRatio_pos (c : ℚ) : 0 < centsToRatio c :=
  Real.rpow_pos_of_pos (by norm_num) _

/-- centsToRatio c = 1 exactly when c = 0. -/
theorem centsToRatio_eq_one_iff (c : ℚ) : centsToRatio c = 1 ↔ c = 0 := by
  constructor
  · intro h
    by_contra hc
    rcases lt_or_gt_of_ne hc with h1 | h1
    · have := centsToRatio_strictMono h1
      rw [centsToRatio_zero, h] at this
      exact lt_irrefl _ this
    · have := centsToRatio_strictMono h1
      rw [centsToRatio_zero, h] at this
      exact lt_irrefl _ this
  · intro h
    rw [h, centsToRatio_zero]

/-- centsToRatio is at most 2 for cents at most 1200. -/
theorem centsToRatio_le_two {c : ℚ} (h : c ≤ 1200) : centsToRatio c ≤ 2 := by
  unfold centsToRatio
  have h1 : (c : ℝ) / 1200 ≤ 1 := by
    have : (c : ℝ) ≤ 1200 := by exact_mod_cast h
    linarith
  calc (2 : ℝ) ^ ((c : ℝ) / 1200) ≤ (2 : ℝ) ^ (1 : ℝ) :=
        (Real.rpow_le_rpow_left_iff one_lt_two).mpr h1
    _ = 2 := Real.rpow_one 2

/-- Every meaningful slot written by recalculateRatios carries the ratio of the
documented offset pattern for the current count. -/
theorem recalc_ratios_meaningful (u : UnisonConfig) (h1 : 1 ≤ u.unisonCount)
    (h4 : u.unisonCount ≤ 4) :
    ∀ i, i < u.unisonCount →
      (recalculateRatios u).detuneRatios i =
        centsToRatio ((offsetsCents u.unisonCount u.baseDetuneCents).getD i 0) := by
  have hc : u.unisonCount = 1 ∨ u.unisonCount = 2 ∨ u.unisonCount = 3 ∨ u.unisonCount = 4 := by
    omega
  rcases hc with hc | hc | hc | hc <;>
    · intro i hi
      rw [hc] at hi
      simp only [recalculateRatios, hc]
      interval_cases i <;>
        simp [updateAt, offsetsCents, centsToRatio_zero]

/-- The clamped count lies in [1,4]. -/
theorem clampCount_bounds (n : ℤ) : 1 ≤ clampCount n ∧ clampCount n ≤ 4 := by
  unfold clampCount
  split_ifs <;> omega

/-- The clamped detune lies in [0,50]. -/
theorem clampDetune_bounds (c : ℚ) : 0 ≤ clampDetune c ∧ clampDetune c ≤ 50 := by
  unfold clampDetune
  split_ifs with h1 h2
  · exact ⟨le_refl 0, by norm_num⟩
  · exact ⟨by norm_num, le_refl 50⟩
  · exact ⟨not_lt.mp h1, not_lt.mp h2⟩

/-- setUnisonCount never changes the base detune. -/
theorem setUnisonCount_base (u : UnisonConfig) (n : ℤ) :
    (setUnisonCount u n).baseDetuneCents = u.baseDetuneCents := by
  unfold setUnisonCount
  split
  · rfl
  · rw [recalc_baseDetuneCents]

/-- The voice count after setUnisonCount is the clamped argument. -/
theorem setUnisonCount_count (u : UnisonConfig) (n : ℤ) :
    ((setUnisonCount u n).unisonCount : ℤ) = clampCount n := by
  have hb := clampCount_bounds n
  unfold setUnisonCount
  split
  · rename_i h
    exact h.symm
  · rw [recalc_unisonCount]
    show ((clampCount n).toNat : ℤ) = clampCount n
    rw [Int.toNat_of_nonneg (by omega)]

/-- Calling setUnisonCount twice in a row with the same argument: the second
call finds the clamped count already stored and changes nothing. -/
theorem setUnisonCount_twice (u : UnisonConfig) (n : ℤ) :
    setUnisonCount (setUnisonCount u n) n = setUnisonCount u n := by
  have h2 := setUnisonCount_count u n
  generalize hs : setUnisonCount u n = s at h2 ⊢
  unfold setUnisonCount
  rw [if_pos h2.symm]

/-- The flag returned by setBaseDetuneCents is true exactly when the call
changed the configuration. -/
theorem setBaseDetuneCents_flag (u : UnisonConfig) (c : ℚ) :
    (setBaseDetuneCents u c).2 = true ↔ (setBaseDetuneCents u c).1 ≠ u := by
  unfold setBaseDetuneCents
  split
  · simp
  · rename_i h
    refine ⟨fun _ heq => ?_, fun _ => rfl⟩
    have heq2 : recalculateRatios { u with baseDetuneCents := clampDetune c } = u := heq
    have hbase := congrArg UnisonConfig.baseDetuneCents heq2
    rw [recalc_baseDetuneCents] at hbase
    have hbase2 : clampDetune c = u.baseDetuneCents := hbase
    rw [hbase2] at h
    norm_num at h

/-- Reachability invariant of UnisonConfig: the count is in [1,4], the base
detune is in [0,50], and every meaningful ratio slot holds the ratio of the
documented offset pattern. -/
theorem ucInv (u : UnisonConfig) (h : UCReachable u) :
    (1 ≤ u.unisonCount ∧ u.unisonCount ≤ 4) ∧
      (0 ≤ u.baseDetuneCents ∧ u.baseDetuneCents ≤ 50) ∧
      ∀ i, i < u.unisonCount →
        u.detuneRatios i =
          centsToRatio ((offsetsCents u.unisonCount u.baseDetuneCents).getD i 0) := by
  induction h with
  | init =>
      have h1 : initUnisonConfig.unisonCount = 1 := by
        rw [initUnisonConfig, recalc_unisonCount]
      have h7 : initUnisonConfig.baseDetuneCents = 7 := by
        rw [initUnisonConfig, recalc_baseDetuneCents]
      refine ⟨⟨?_, ?_⟩, ⟨?_, ?_⟩, ?_⟩
      · rw [h1]
      · rw [h1]; omega
      · rw [h7]; norm_num
      · rw [h7]; norm_num
      · intro i hi
        rw [h1] at hi
        rw [h1, h7, initUnisonConfig]
        exact recalc_ratios_meaningful
          { unisonCount := 1, baseDetuneCents := 7, detuneRatios := fun _ => 0 }
          (by norm_num) (by norm_num) i hi
  | count u n hu ih =>
      rcases ih with ⟨hcount, hbase, hratios⟩
      by_cases hif : clampCount n = (u.unisonCount : ℤ)
      · have hfix : setUnisonCount u n = u := by
          unfold setUnisonCount
          rw [if_pos hif]
        rw [hfix]
        exact ⟨hcount, hbase, hratios⟩
      · have heq : setUnisonCount u n =
            recalculateRatios { u with unisonCount := (clampCount n).toNat } := by
          unfold setUnisonCount
          rw [if_neg hif]
        have hb := clampCount_bounds n
        have hcnt : ({ u with unisonCount := (clampCount n).toNat } : UnisonConfig).unisonCount
            = (clampCount n).toNat := rfl
        rw [heq]
        refine ⟨⟨?_, ?_⟩, ⟨?_, ?_⟩, ?_⟩
        · rw [recalc_unisonCount, hcnt]; omega
        · rw [recalc_unisonCount, hcnt]; omega
        · rw [recalc_baseDetuneCents]; exact hbase.1
        · rw [recalc_baseDetuneCents]; exact hbase.2
        · intro i hi
          rw [recalc_unisonCount, hcnt] at hi
          rw [recalc_unisonCount, recalc_baseDetuneCents,
            recalc_ratios_meaningful _ (by rw [hcnt]; omega) (by rw [hcnt]; omega) i
              (by rw [hcnt]; exact hi)]
  | detune u c hu ih =>
      rcases ih with ⟨hcount, hbase, hratios⟩
      by_cases hif : |clampDetune c - u.baseDetuneCents| < 0.001
      · have hfix : (setBaseDetuneCents u c).1 = u := by
          unfold setBaseDetuneCents
          rw [if_pos hif]
        rw [hfix]
        exact ⟨hcount, hbase, hratios⟩
      · have heq : (setBaseDetuneCents u c).1 =
            recalculateRatios { u with baseDetuneCents := clampDetune c } := by
          unfold setBaseDetuneCents
          rw [if_neg hif]
        have hb := clampDetune_bounds c
        have hcnt : ({ u with baseDetuneCents := clampDetune c } : UnisonConfig).unisonCount
            = u.unisonCount := rfl
        rw [heq]
        refine ⟨⟨?_, ?_⟩, ⟨?_, ?_⟩, ?_⟩
        · rw [recalc_unisonCount, hcnt]; exact hcount.1
        · rw [recalc_unisonCount, hcnt]; exact hcount.2
        · rw [recalc_baseDetuneCents]; exact hb.1
        · rw [recalc_baseDetuneCents]; exact hb.2
        · intro i hi
          rw [recalc_unisonCount, hcnt] at hi
          rw [recalc_unisonCount, recalc_baseDetuneCents,
            recalc_ratios_meaningful _ (by rw [hcnt]; exact hcount.1) (by rw [hcnt]; exact hcount.2)
              i (by rw [hcnt]; exact hi)]

/-- calculatePhaseIncrements only rewrites phase increments. -/
theorem calc_proj (s : ChordPlayerState) :
    (calculatePhaseIncrements s).currentChord = s.currentChord ∧
    (calculatePhaseIncrements s).unisonConfig = s.unisonConfig ∧
    (calculatePhaseIncrements s).phases = s.phases ∧
    (calculatePhaseIncrements s).storedSampleRate = s.storedSampleRate ∧
    (calculatePhaseIncrements s).hasOscillator = s.hasOscillator := by
  unfold calculatePhaseIncrements
  rcases hc : s.currentChord with _ | ch <;> rcases hu : s.unisonConfig with _ | u <;>
    simp [hc, hu]

/-- With both references present, calculatePhaseIncrements writes the detuned
increment formula into every active voice slot and keeps the rest. -/
theorem calc_incs (s : ChordPlayerState) (ch : Chord) (u : UnisonConfig)
    (hc : s.currentChord = some ch) (hu : s.unisonConfig = some u) :
    ∀ v : ℕ,
      (calculatePhaseIncrements s).phaseIncrements v =
        if v < 3 * u.unisonCount then
          256 * ((chordBaseFreq ch (v / u.unisonCount) : ℝ) * u.detuneRatios (v % u.unisonCount))
            / s.storedSampleRate
        else s.phaseIncrements v := by
  intro v
  unfold calculatePhaseIncrements
  rw [hc, hu]

/-- The accumulator of the mixing loop is the sum of the per-voice samples
read at the wrapped phases, and only slots below the voice count advance. -/
theorem mixLoop_spec (g : ℤ → ℤ → ℤ) (a : ℤ) (incs ph : ℕ → ℝ) :
    ∀ k : ℕ,
      (mixLoop g a incs ph k).1 =
        ∑ i ∈ Finset.range k, g (realTruncToInt (wrapPhase (ph i))) a ∧
      ∀ j, (mixLoop g a incs ph k).2 j =
        if j < k then wrapPhase (ph j) + incs j else ph j := by
  intro k
  induction k with
  | zero => exact ⟨by simp [mixLoop], fun j => by simp [mixLoop]⟩
  | succ n ih =>
      rcases ih with ⟨ih1, ih2⟩
      have hn : (mixLoop g a incs ph n).2 n = ph n := by
        rw [ih2 n]
        simp
      constructor
      · show (mixLoop g a incs ph n).1 + g (realTruncToInt (wrapPhase ((mixLoop g a incs ph n).2 n))) a = _
        rw [hn, ih1, Finset.sum_range_succ]
      · intro j
        show updateAt (mixLoop g a incs ph n).2 n (wrapPhase ((mixLoop g a incs ph n).2 n) + incs n) j = _
        rw [hn]
        unfold updateAt
        by_cases hj : j = n
        · subst hj
          rw [if_pos rfl, if_pos (Nat.lt_succ_self j)]
        · rw [if_neg hj, ih2 j]
          by_cases hlt : j < n
          · rw [if_pos hlt, if_pos (Nat.lt_succ_of_lt hlt)]
          · rw [if_neg hlt, if_neg (by omega)]

/-- getNextSample with both references present: the returned sample is the
int16 conversion of the 32-bit mix sum, and each active phase is wrapped then
advanced. -/
theorem getNextSample_spec (g : ℤ → ℤ → ℤ) (s : ChordPlayerState) (u : UnisonConfig)
    (hosc : s.hasOscillator = true) (hu : s.unisonConfig = some u) :
    (getNextSample g s).1 =
      toInt16 (∑ i ∈ Finset.range (3 * u.unisonCount),
        g (realTruncToInt (wrapPhase (s.phases i))) (getMaxAmplitudePerVoice s)) ∧
    ∀ j, (getNextSample g s).2.phases j =
      if j < 3 * u.unisonCount then wrapPhase (s.phases j) + s.phaseIncrements j
      else s.phases j := by
  have hspec := mixLoop_spec g (getMaxAmplitudePerVoice s) s.phaseIncrements s.phases
    (3 * u.unisonCount)
  unfold getNextSample
  rw [hosc, hu]
  simp only [Bool.true_eq_false, if_false]
  exact ⟨by rw [hspec.1], fun j => by rw [hspec.2 j]⟩

/-- getNextSample never touches the chord pointer, the references, the
increments or the sample rate. -/
theorem getNextSample_proj (g : ℤ → ℤ → ℤ) (s : ChordPlayerState) :
    (getNextSample g s).2.currentChord = s.currentChord ∧
    (getNextSample g s).2.unisonConfig = s.unisonConfig ∧
    (getNextSample g s).2.phaseIncrements = s.phaseIncrements ∧
    (getNextSample g s).2.storedSampleRate = s.storedSampleRate ∧
    (getNextSample g s).2.hasOscillator = s.hasOscillator := by
  unfold getNextSample
  by_cases hosc : s.hasOscillator = false
  · rw [if_pos hosc]
    exact ⟨rfl, rfl, rfl, rfl, rfl⟩
  · rw [if_neg hosc]
    rcases hu : s.unisonConfig with _ | u <;> simp [hu]

/-- toInt16 is the identity on the int16 range. -/
theorem toInt16_eq_self {x : ℤ} (h1 : -32768 ≤ x) (h2 : x ≤ 32767) : toInt16 x = x := by
  unfold toInt16
  rw [Int.emod_eq_of_lt (by omega) (by omega)]
  omega

/-- A sum of k integers, each bounded by a in absolute value, is bounded by
k * a in absolute value. -/
theorem abs_sum_le_card_mul (k : ℕ) (f : ℕ → ℤ) (a : ℤ) (hf : ∀ i, |f i| ≤ a) :
    |∑ i ∈ Finset.range k, f i| ≤ k * a := by
  calc |∑ i ∈ Finset.range k, f i| ≤ ∑ i ∈ Finset.range k, |f i| :=
        Finset.abs_sum_le_sum_abs _ _
    _ ≤ ∑ _i ∈ Finset.range k, a := Finset.sum_le_sum fun i _ => hf i
    _ = k * a := by rw [Finset.sum_const, Finset.card_range, nsmul_eq_mul]

/-- setChord with a null argument does nothing. -/
theorem setChord_none (s : ChordPlayerState) : setChord s none = s := rfl

/-- setChord with a non-null argument installs that chord. -/
theorem setChord_some_chord (s : ChordPlayerState) (ch : Chord) :
    (setChord s (some ch)).currentChord = some ch := by
  unfold setChord
  rw [(calc_proj _).1]

/-- setChordFromProgression on a non-null array reduces to the bounds check. -/
theorem scfp_some (s : ChordPlayerState) (i : ℤ) (f : ℤ → Option Chord) (l : ℤ) :
    setChordFromProgression s i (some f) l =
      if 0 ≤ i ∧ i < l then setChord s (f i) else s := rfl

/-- setChordFromProgression either leaves the chord pointer alone or installs
some chord; it never nulls it. -/
theorem scfp_chord_cases (s : ChordPlayerState) (i : ℤ) (p : Option (ℤ → Option Chord))
    (l : ℤ) :
    (setChordFromProgression s i p l).currentChord = s.currentChord ∨
    ∃ ch, (setChordFromProgression s i p l).currentChord = some ch := by
  rcases p with _ | f
  · exact Or.inl rfl
  · rw [scfp_some]
    by_cases hidx : 0 ≤ i ∧ i < l
    · rw [if_pos hidx]
      rcases hc : f i with _ | ch
      · exact Or.inl rfl
      · exact Or.inr ⟨ch, setChord_some_chord s ch⟩
    · rw [if_neg hidx]
      exact Or.inl rfl

/-- C9: if getNextSample() is called while either the shared oscillator
reference or the unison-configuration reference is null (their state before
setOscillator / setUnisonConfig), it returns 0 and leaves every phase
accumulator — in fact the whole state — unchanged. -/
theorem C9_getNextSample_null_silence (g : ℤ → ℤ → ℤ) (s : ChordPlayerState)
    (h : s.hasOscillator = false ∨ s.unisonConfig = none) :
    getNextSample g s = (0, s) ∧ ∀ i, (getNextSample g s).2.phases i = s.phases i := by
  have key : getNextSample g s = (0, s) := by
    unfold getNextSample
    rcases h with h | h
    · rw [if_pos h]
    · rw [h]
      split <;> rfl
  exact ⟨key, fun i => by rw [key]⟩

/-- C9 witness: the freshly constructed player has a null oscillator
reference, so the first sample is silent and the state is untouched. -/
theorem C9_witness :
    getNextSample (fun _ _ => 0) initChordPlayer = (0, initChordPlayer) ∧
    (getNextSample (fun _ _ => 0) initChordPlayer).2.phases 0 = initChordPlayer.phases 0 :=
  ⟨(C9_getNextSample_null_silence (fun _ _ => 0) initChordPlayer (Or.inl rfl)).1,
   (C9_getNextSample_null_silence (fun _ _ => 0) initChordPlayer (Or.inl rfl)).2 0⟩

/-- C8: setChordFromProgression(i, p, L) calls setChord(p[i]) when
0 ≤ i < L and p is non-null, and otherwise is a complete no-op returning the
state unchanged — it never signals an error. -/
theorem C8_setChordFromProgression_guard :
    (∀ (s : ChordPlayerState) (idx : ℤ) (p : ℤ → Option Chord) (len : ℤ),
        0 ≤ idx → idx < len →
        setChordFromProgression s idx (some p) len = setChord s (p idx)) ∧
    (∀ (s : ChordPlayerState) (idx len : ℤ) (p : Option (ℤ → Option Chord)),
        p = none ∨ idx < 0 ∨ len ≤ idx →
        setChordFromProgression s idx p len = s) := by
  constructor
  · intro s idx p len h1 h2
    rw [scfp_some, if_pos ⟨h1, h2⟩]
  · intro s idx len p h
    rcases p with _ | f
    · rfl
    · rcases h with h | h | h
      · exact absurd h (by simp)
      · have hn : ¬(0 ≤ idx ∧ idx < len) := by omega
        rw [scfp_some, if_neg hn]
      · have hn : ¬(0 ≤ idx ∧ idx < len) := by omega
        rw [scfp_some, if_neg hn]

/-- C8 witness: index 0 of the jazz progression dispatches to setChord, and
the out-of-range index 7 leaves the state untouched. -/
theorem C8_witness :
    setChordFromProgression initChordPlayer 0
        (some (listToProgression JAZZ_PROGRESSION_1)) 4 =
      setChord initChordPlayer (listToProgression JAZZ_PROGRESSION_1 0) ∧
    setChordFromProgression initChordPlayer 7
        (some (listToProgression JAZZ_PROGRESSION_1)) 4 = initChordPlayer :=
  ⟨C8_setChordFromProgression_guard.1 initChordPlayer 0
      (listToProgression JAZZ_PROGRESSION_1) 4 (by norm_num) (by norm_num),
   C8_setChordFromProgression_guard.2 initChordPlayer 7 4
      (some (listToProgression JAZZ_PROGRESSION_1)) (Or.inr (Or.inr (by norm_num)))⟩

/-- C10: setChord(null) is a complete no-op; the constructor installs Cm7; on
every reachable state the chord pointer is non-null, so getChordName and
getChordDescription never take their null-fallback branch. -/
theorem C10_chord_pointer_never_null :
    (∀ s : ChordPlayerState, setChord s none = s) ∧
    initChordPlayer.currentChord = some CM7 ∧
    (∀ s : ChordPlayerState, CPReachable s →
        ∃ ch : Chord, s.currentChord = some ch ∧
          getChordName s = ch.name ∧ getChordDescription s = ch.description) := by
  refine ⟨fun s => rfl, rfl, ?_⟩
  intro s hs
  suffices h : ∃ ch, s.currentChord = some ch by
    rcases h with ⟨ch, hch⟩
    exact ⟨ch, hch, by unfold getChordName; rw [hch], by unfold getChordDescription; rw [hch]⟩
  induction hs with
  | init => exact ⟨CM7, rfl⟩
  | osc s b hs ih => exact ih
  | cfg s c hs ih =>
      rcases ih with ⟨ch, hch⟩
      refine ⟨ch, ?_⟩
      unfold setUnisonConfigRef
      rw [(calc_proj _).1]
      exact hch
  | rate s r hs ih =>
      rcases ih with ⟨ch, hch⟩
      refine ⟨ch, ?_⟩
      unfold initPlayer
      rw [(calc_proj _).1]
      exact hch
  | chord s c hs ih =>
      rcases c with _ | ch2
      · exact ih
      · exact ⟨ch2, setChord_some_chord s ch2⟩
  | recalc s hs ih =>
      rcases ih with ⟨ch, hch⟩
      refine ⟨ch, ?_⟩
      unfold recalculatePhaseIncrementsPub
      rw [(calc_proj _).1]
      exact hch
  | prog s i p l hs ih =>
      rcases scfp_chord_cases s i p l with h | h
      · rw [h]
        exact ih
      · exact h
  | reset s hs ih => exact ih
  | sample s g hs ih =>
      rcases ih with ⟨ch, hch⟩
      refine ⟨ch, ?_⟩
      rw [(getNextSample_proj g s).1]
      exact hch

/-- C10 witness: the initial state is reachable and its chord accessors report
Cm7, not the null fallbacks. -/
theorem C10_witness :
    ∃ ch : Chord, initChordPlayer.currentChord = some ch ∧
      getChordName initChordPlayer = ch.name ∧
      getChordDescription initChordPlayer = ch.description :=
  C10_chord_pointer_never_null.2.2 initChordPlayer CPReachable.init

/-- C7: for every non-null chord, setChord replaces the chord pointer and
recomputes every active voice's increment as
(tableLength × noteFrequency × unisonRatio) / sampleRate, leaving every phase
accumulator unchanged; phases are zeroed only by an explicit reset(). -/
theorem C7_setChord_swaps_and_recomputes (s : ChordPlayerState) (ch : Chord)
    (u : UnisonConfig) (hu : s.unisonConfig = some u) :
    (setChord s (some ch)).currentChord = some ch ∧
    (setChord s (some ch)).phases = s.phases ∧
    (∀ v, v < 3 * u.unisonCount →
        (setChord s (some ch)).phaseIncrements v =
          256 * ((chordBaseFreq ch (v / u.unisonCount) : ℝ) * u.detuneRatios (v % u.unisonCount))
            / s.storedSampleRate) ∧
    (∀ i, (resetPlayer s).phases i = 0) := by
  have h1 : setChord s (some ch) =
      calculatePhaseIncrements { s with currentChord := some ch } := rfl
  refine ⟨setChord_some_chord s ch, ?_, ?_, fun i => rfl⟩
  · rw [h1, (calc_proj _).2.2.1]
  · intro v hv
    rw [h1, calc_incs { s with currentChord := some ch } ch u rfl hu, if_pos hv]

/-- C7 witness: with the default unison configuration attached, switching the
fresh player to Ebmaj7 installs the chord, recomputes voice 0 and keeps the
phases. -/
theorem C7_witness :
    (setChord (setUnisonConfigRef initChordPlayer (some initUnisonConfig))
        (some EBMAJ7)).currentChord = some EBMAJ7 ∧
    (setChord (setUnisonConfigRef initChordPlayer (some initUnisonConfig))
        (some EBMAJ7)).phases =
      (setUnisonConfigRef initChordPlayer (some initUnisonConfig)).phases := by
  have hu : (setUnisonConfigRef initChordPlayer (some initUnisonConfig)).unisonConfig =
      some initUnisonConfig := by
    unfold setUnisonConfigRef
    rw [(calc_proj _).2.1]
  have h := C7_setChord_swaps_and_recomputes
    (setUnisonConfigRef initChordPlayer (some initUnisonConfig)) EBMAJ7 initUnisonConfig hu
  exact ⟨h.1, h.2.1⟩

/-- C5 (amended): calling setUnisonCount twice in a row with the same argument
performs the recompute only once — the second call changes no state — and
setBaseDetuneCents (but not the void setUnisonCount) returns a flag that is
true exactly when a recompute occurred, i.e. when the state changed. -/
theorem C5_idempotence_and_flag :
    (∀ (u : UnisonConfig) (n : ℤ),
        setUnisonCount (setUnisonCount u n) n = setUnisonCount u n) ∧
    (∀ (u : UnisonConfig) (c : ℚ),
        (setBaseDetuneCents u c).2 = true ↔ (setBaseDetuneCents u c).1 ≠ u) :=
  ⟨setUnisonCount_twice, setBaseDetuneCents_flag⟩

/-- C5 counterexample: setUnisonCount is void.  From the initial state, the
call setUnisonCount(2) performs a recompute (the state changes) and repeating
it does not, yet the value the function returns is identical in both calls —
so setUnisonCount's return value cannot report whether a recompute occurred,
refuting the claim that both setters return such a flag. -/
theorem C5_counterexample :
    setUnisonCountRet initUnisonConfig 2 =
        setUnisonCountRet (setUnisonCount initUnisonConfig 2) 2 ∧
    setUnisonCount initUnisonConfig 2 ≠ initUnisonConfig ∧
    setUnisonCount (setUnisonCount initUnisonConfig 2) 2 =
        setUnisonCount initUnisonConfig 2 := by
  refine ⟨rfl, ?_, setUnisonCount_twice initUnisonConfig 2⟩
  intro h
  have h1 : ((setUnisonCount initUnisonConfig 2).unisonCount : ℤ) = clampCount 2 :=
    setUnisonCount_count initUnisonConfig 2
  have h2 : initUnisonConfig.unisonCount = 1 := by
    rw [initUnisonConfig, recalc_unisonCount]
  rw [h, h2] at h1
  norm_num [clampCount] at h1

/-- A concrete built oscillator (the sine table, whose entries come from the
transcendental sinf and are irrelevant to the indexing behaviour, is zeroed). -/
def osc0 : Oscillator := buildTables (fun _ => 0) OscillatorType.OSC_SINE

/-- C2 counterexample: at shape SAWTOOTH and index 256 the code returns 0,
while the table value at position 256 mod 256 is -14000 — so getSample does
not return the table value at index mod tableLength for out-of-range indices;
only the return-0 half of the claim matches the code. -/
theorem C2_counterexample :
    Oscillator.getSample osc0 OscillatorType.OSC_SAWTOOTH 256 = 0 ∧
    oscTableOf osc0 OscillatorType.OSC_SAWTOOTH (((256 : ℤ) % 256).toNat) = -14000 ∧
    (0 : ℤ) ≠ -14000 := by
  refine ⟨?_, ?_, by norm_num⟩
  · unfold Oscillator.getSample
    rw [if_pos (Or.inr (by norm_num))]
  · have hidx : ((256 : ℤ) % 256).toNat = 0 := by norm_num
    rw [hidx]
    show ratTruncToInt (((2 * (0 : ℕ) : ℚ) / 256 - 1) * 14000) = -14000
    have hv : ((2 * (0 : ℕ) : ℚ) / 256 - 1) * 14000 = ((-14000 : ℤ) : ℚ) := by
      push_cast
      ring
    rw [hv]
    unfold ratTruncToInt
    rw [if_neg (by push_cast; norm_num), Int.ceil_intCast]

/-- C2 (amended): for in-range indices getSample returns the table value at
the index (which there coincides with index mod tableLength); negative or
out-of-range indices return 0 and are not wrapped by the modulus. -/
theorem C2_getSample_behaviour :
    (∀ (osc : Oscillator) (t : OscillatorType) (i : ℤ), 0 ≤ i → i < 256 →
        Oscillator.getSample osc t i = oscTableOf osc t ((i % 256).toNat)) ∧
    (∀ (osc : Oscillator) (t : OscillatorType) (i : ℤ), i < 0 ∨ 256 ≤ i →
        Oscillator.getSample osc t i = 0) := by
  constructor
  · intro osc t i h1 h2
    have hmod : i % 256 = i := Int.emod_eq_of_lt h1 h2
    rw [hmod]
    unfold Oscillator.getSample oscTableOf
    rw [if_neg (by omega)]
    cases t <;> rfl
  · intro osc t i h
    unfold Oscillator.getSample
    rw [if_pos h]

/-- C2 witness: the square table is read directly at index 5, and index -3
yields 0. -/
theorem C2_witness :
    Oscillator.getSample osc0 OscillatorType.OSC_SQUARE 5 =
        oscTableOf osc0 OscillatorType.OSC_SQUARE (((5 : ℤ) % 256).toNat) ∧
    Oscillator.getSample osc0 OscillatorType.OSC_SQUARE (-3) = 0 :=
  ⟨C2_getSample_behaviour.1 osc0 OscillatorType.OSC_SQUARE 5 (by norm_num) (by norm_num),
   C2_getSample_behaviour.2 osc0 OscillatorType.OSC_SQUARE (-3) (Or.inl (by norm_num))⟩

/-- The chord installed by setChordFromProgression from the jazz progression,
for each in-range index. -/
theorem scfp_jazz_chords (p : ChordPlayerState) :
    (setChordFromProgression p 0 (some (listToProgression JAZZ_PROGRESSION_1))
        JAZZ_PROGRESSION_1_LENGTH).currentChord = some EBMAJ7 ∧
    (setChordFromProgression p 1 (some (listToProgression JAZZ_PROGRESSION_1))
        JAZZ_PROGRESSION_1_LENGTH).currentChord = some CM7 ∧
    (setChordFromProgression p 2 (some (listToProgression JAZZ_PROGRESSION_1))
        JAZZ_PROGRESSION_1_LENGTH).currentChord = some ABMAJ7 ∧
    (setChordFromProgression p 3 (some (listToProgression JAZZ_PROGRESSION_1))
        JAZZ_PROGRESSION_1_LENGTH).currentChord = some ABMAJ7 := by
  have h0 : listToProgression JAZZ_PROGRESSION_1 0 = some EBMAJ7 := by
    simp [listToProgression, JAZZ_PROGRESSION_1]
  have h1 : listToProgression JAZZ_PROGRESSION_1 1 = some CM7 := by
    simp [listToProgression, JAZZ_PROGRESSION_1]
  have h2 : listToProgression JAZZ_PROGRESSION_1 2 = some ABMAJ7 := by
    simp [listToProgression, JAZZ_PROGRESSION_1]
  have h3 : listToProgression JAZZ_PROGRESSION_1 3 = some ABMAJ7 := by
    simp [listToProgression, JAZZ_PROGRESSION_1]
  refine ⟨?_, ?_, ?_, ?_⟩
  · rw [scfp_some, if_pos (by norm_num [JAZZ_PROGRESSION_1_LENGTH]), h0]
    exact setChord_some_chord p EBMAJ7
  · rw [scfp_some, if_pos (by norm_num [JAZZ_PROGRESSION_1_LENGTH]), h1]
    exact setChord_some_chord p CM7
  · rw [scfp_some, if_pos (by norm_num [JAZZ_PROGRESSION_1_LENGTH]), h2]
    exact setChord_some_chord p ABMAJ7
  · rw [scfp_some, if_pos (by norm_num [JAZZ_PROGRESSION_1_LENGTH]), h3]
    exact setChord_some_chord p ABMAJ7

/-- The player state on entering PROGRESSION mode: the button handler selects
chord 0 of the jazz progression and resets the phases. -/
noncomputable def progressionModePlayer : ChordPlayerState :=
  resetPlayer (setChordFromProgression initChordPlayer 0
    (some (listToProgression JAZZ_PROGRESSION_1)) JAZZ_PROGRESSION_1_LENGTH)

/-- The audio-task progression state on entering PROGRESSION mode at time 0:
index 0, timing anchor 0. -/
noncomputable def synthStart : SynthState :=
  { currentChordIndex := 0, lastChordChangeTime := 0, player := progressionModePlayer }

/-- When the interval has elapsed, the step produces exactly the advanced
record. -/
theorem progressionStep_fire (t : ℕ) (st : SynthState)
    (h : CHORD_DURATION_MS ≤ t - st.lastChordChangeTime) :
    progressionStep t st =
      { currentChordIndex := (st.currentChordIndex + 1) % 4, lastChordChangeTime := t,
        player := setChordFromProgression st.player (((st.currentChordIndex + 1) % 4 : ℕ) : ℤ)
          (some (listToProgression JAZZ_PROGRESSION_1)) JAZZ_PROGRESSION_1_LENGTH } := by
  unfold progressionStep
  rw [if_pos h]

/-- Before the interval elapses, the step does nothing. -/
theorem progressionStep_idle (t : ℕ) (st : SynthState)
    (h : ¬ CHORD_DURATION_MS ≤ t - st.lastChordChangeTime) :
    progressionStep t st = st := by
  unfold progressionStep
  rw [if_neg h]

/-- C6: in PROGRESSION mode with the jazz progression and a 1600 ms interval,
each elapse of the interval increments the chord index modulo the progression
length and installs the progression chord of the new index; concretely,
starting at index 0 nothing happens at 1599 ms, at 1600 ms the index advances
to 1 (chord Cm7), and after four intervals it has wrapped back to 0 (chord
Ebmaj7). -/
theorem C6_progression_schedule :
    (∀ (t : ℕ) (st : SynthState), CHORD_DURATION_MS ≤ t - st.lastChordChangeTime →
        (progressionStep t st).currentChordIndex = (st.currentChordIndex + 1) % 4 ∧
        (progressionStep t st).lastChordChangeTime = t ∧
        (progressionStep t st).player =
          setChordFromProgression st.player (((st.currentChordIndex + 1) % 4 : ℕ) : ℤ)
            (some (listToProgression JAZZ_PROGRESSION_1)) JAZZ_PROGRESSION_1_LENGTH) ∧
    progressionStep 1599 synthStart = synthStart ∧
    (progressionStep 1600 synthStart).currentChordIndex = 1 ∧
    (progressionStep 1600 synthStart).player.currentChord = some CM7 ∧
    (progressionStep 6400 (progressionStep 4800 (progressionStep 3200
        (progressionStep 1600 synthStart)))).currentChordIndex = 0 ∧
    (progressionStep 6400 (progressionStep 4800 (progressionStep 3200
        (progressionStep 1600 synthStart)))).player.currentChord = some EBMAJ7 := by
  have hstart_idx : synthStart.currentChordIndex = 0 := rfl
  have hstart_time : synthStart.lastChordChangeTime = 0 := rfl
  have hs1 := progressionStep_fire 1600 synthStart
    (by rw [hstart_time]; norm_num [CHORD_DURATION_MS])
  have hs2 := progressionStep_fire 3200 (progressionStep 1600 synthStart)
    (by rw [hs1]; norm_num [CHORD_DURATION_MS])
  have hs3 := progressionStep_fire 4800 (progressionStep 3200 (progressionStep 1600 synthStart))
    (by rw [hs2, hs1]; norm_num [CHORD_DURATION_MS])
  have hs4 := progressionStep_fire 6400 (progressionStep 4800 (progressionStep 3200
      (progressionStep 1600 synthStart)))
    (by rw [hs3, hs2, hs1]; norm_num [CHORD_DURATION_MS])
  refine ⟨?_, ?_, ?_, ?_, ?_, ?_⟩
  · intro t st h
    rw [progressionStep_fire t st h]
    exact ⟨rfl, rfl, rfl⟩
  · exact progressionStep_idle 1599 synthStart (by rw [hstart_time]; norm_num [CHORD_DURATION_MS])
  · rw [hs1, hstart_idx]
  · rw [hs1, hstart_idx]
    exact (scfp_jazz_chords _).2.1
  · rw [hs4, hs3, hs2, hs1, hstart_idx]
    norm_num
  · rw [hs4, hs3, hs2, hs1, hstart_idx]
    norm_num
    exact (scfp_jazz_chords _).1

/-- C6 witness: the generic advance clause applied at the concrete state
entering PROGRESSION mode, at time 1600 ms. -/
theorem C6_witness :
    (progressionStep 1600 synthStart).currentChordIndex =
        (synthStart.currentChordIndex + 1) % 4 ∧
    (progressionStep 1600 synthStart).lastChordChangeTime = 1600 ∧
    (progressionStep 1600 synthStart).player =
      setChordFromProgression synthStart.player
        (((synthStart.currentChordIndex + 1) % 4 : ℕ) : ℤ)
        (some (listToProgression JAZZ_PROGRESSION_1)) JAZZ_PROGRESSION_1_LENGTH :=
  C6_progression_schedule.1 1600 synthStart (by norm_num [synthStart, CHORD_DURATION_MS])

/-- C1: with both references present, a unison count n in {1,2,3,4}, and every
per-voice sample bounded by the requested per-voice amplitude (the abstracted
getSampleScaled contract), the value returned by getNextSample is exactly the
32-bit mix sum — the int16 truncation is lossless — every partial sum of the
accumulator stays within ±14000, and the result lies in the signed 16-bit
range.  The bound holds for every state, hence for every sequence of calls. -/
theorem C1_getNextSample_int16_safe (g : ℤ → ℤ → ℤ) (s : ChordPlayerState)
    (u : UnisonConfig) (hosc : s.hasOscillator = true) (hu : s.unisonConfig = some u)
    (hn : u.unisonCount = 1 ∨ u.unisonCount = 2 ∨ u.unisonCount = 3 ∨ u.unisonCount = 4)
    (hg : ∀ idx amp : ℤ, 0 ≤ amp → |g idx amp| ≤ amp) :
    |(getNextSample g s).1| ≤ 14000 ∧
    -32768 ≤ (getNextSample g s).1 ∧ (getNextSample g s).1 ≤ 32767 ∧
    (∀ k, k ≤ 3 * u.unisonCount →
        |∑ i ∈ Finset.range k,
            g (realTruncToInt (wrapPhase (s.phases i))) (getMaxAmplitudePerVoice s)| ≤ 14000) ∧
    (getNextSample g s).1 =
      ∑ i ∈ Finset.range (3 * u.unisonCount),
        g (realTruncToInt (wrapPhase (s.phases i))) (getMaxAmplitudePerVoice s) := by
  have hamp : getMaxAmplitudePerVoice s = ((14000 / (3 * u.unisonCount) : ℕ) : ℤ) := by
    unfold getMaxAmplitudePerVoice
    rw [hu]
  have hampnn : 0 ≤ getMaxAmplitudePerVoice s := by
    rw [hamp]
    positivity
  have hbound : ∀ k, k ≤ 3 * u.unisonCount →
      |∑ i ∈ Finset.range k,
          g (realTruncToInt (wrapPhase (s.phases i))) (getMaxAmplitudePerVoice s)| ≤ 14000 := by
    intro k hk
    have h3 : ((3 * u.unisonCount : ℕ) : ℤ) * ((14000 / (3 * u.unisonCount) : ℕ) : ℤ)
        ≤ 14000 := by
      have hnat : (3 * u.unisonCount) * (14000 / (3 * u.unisonCount)) ≤ 14000 := by
        rw [Nat.mul_comm]
        exact Nat.div_mul_le_self 14000 (3 * u.unisonCount)
      exact_mod_cast hnat
    calc |∑ i ∈ Finset.range k,
            g (realTruncToInt (wrapPhase (s.phases i))) (getMaxAmplitudePerVoice s)|
        ≤ k * getMaxAmplitudePerVoice s :=
          abs_sum_le_card_mul k _ _ (fun i => hg _ _ hampnn)
      _ ≤ ((3 * u.unisonCount : ℕ) : ℤ) * getMaxAmplitudePerVoice s := by
          apply mul_le_mul_of_nonneg_right _ hampnn
          exact_mod_cast hk
      _ = ((3 * u.unisonCount : ℕ) : ℤ) * ((14000 / (3 * u.unisonCount) : ℕ) : ℤ) := by
          rw [hamp]
      _ ≤ 14000 := h3
  have htot := hbound (3 * u.unisonCount) (le_refl _)
  obtain ⟨htot1, htot2⟩ := abs_le.mp htot
  have hfst := (getNextSample_spec g s u hosc hu).1
  have hfst2 : (getNextSample g s).1 =
      ∑ i ∈ Finset.range (3 * u.unisonCount),
        g (realTruncToInt (wrapPhase (s.phases i))) (getMaxAmplitudePerVoice s) := by
    rw [hfst, toInt16_eq_self (by linarith) (by linarith)]
  refine ⟨?_, ?_, ?_, hbound, hfst2⟩
  · rw [hfst2]
    exact htot
  · rw [hfst2]
    linarith
  · rw [hfst2]
    linarith

/-- A player with the oscillator and the default unison configuration
attached. -/
noncomputable def configuredPlayer : ChordPlayerState :=
  setOscillator (setUnisonConfigRef initChordPlayer (some initUnisonConfig)) true

/-- C1 witness: on the configured player with a per-voice source respecting
the bound, the mixed sample is within the signed 16-bit range. -/
theorem C1_witness :
    |(getNextSample (fun _ _ => 0) configuredPlayer).1| ≤ 14000 ∧
    -32768 ≤ (getNextSample (fun _ _ => 0) configuredPlayer).1 ∧
    (getNextSample (fun _ _ => 0) configuredPlayer).1 ≤ 32767 := by
  have hosc : configuredPlayer.hasOscillator = true := rfl
  have hu : configuredPlayer.unisonConfig = some initUnisonConfig := by
    show (setUnisonConfigRef initChordPlayer (some initUnisonConfig)).unisonConfig =
      some initUnisonConfig
    unfold setUnisonConfigRef
    rw [(calc_proj _).2.1]
  have hcount : initUnisonConfig.unisonCount = 1 := by
    rw [initUnisonConfig, recalc_unisonCount]
  have h := C1_getNextSample_int16_safe (fun _ _ => 0) configuredPlayer initUnisonConfig
    hosc hu (Or.inl hcount) (fun idx amp ha => by simpa using ha)
  exact ⟨h.1, h.2.1, h.2.2.1⟩

/-- getNextSample with a null reference returns silence and the same state. -/
theorem getNextSample_null (g : ℤ → ℤ → ℤ) (s : ChordPlayerState)
    (h : s.hasOscillator = false ∨ s.unisonConfig = none) :
    getNextSample g s = (0, s) := by
  unfold getNextSample
  rcases h with h | h
  · rw [if_pos h]
  · rw [h]
    split <;> rfl

/-- Invariant of ChordPlayer phases: each accumulator stays below 512. -/
def PhaseInv (s : ChordPlayerState) : Prop :=
  ∀ i, 0 ≤ s.phases i ∧ s.phases i < 512

/-- Invariant of ChordPlayer increments: each is in [0, 256). -/
def IncBound (s : ChordPlayerState) : Prop :=
  ∀ i, 0 ≤ s.phaseIncrements i ∧ s.phaseIncrements i < 256

/-- The single-subtraction wrap maps [0, 512) into [0, 256). -/
theorem wrapPhase_mem {p : ℝ} (h0 : 0 ≤ p) (h512 : p < 512) :
    0 ≤ wrapPhase p ∧ wrapPhase p < 256 := by
  unfold wrapPhase
  split_ifs with h
  · constructor <;> linarith
  · exact ⟨h0, by linarith [not_le.mp h]⟩

/-- Every note frequency of every library chord is positive and at most
1600 Hz. -/
theorem chordLibrary_freq_bounds (ch : Chord) (h : ch ∈ chordLibrary) (k : ℕ) :
    0 < chordBaseFreq ch k ∧ chordBaseFreq ch k ≤ 1600 := by
  have hcases : ch = CM7 ∨ ch = EBMAJ7 ∨ ch = ABMAJ7 ∨ ch = GMAJ7 ∨ ch = DM7 ∨ ch = FMAJ7 := by
    simpa [chordLibrary] using h
  rcases hcases with h | h | h | h | h | h <;> subst h <;>
    rcases k with _ | _ | k <;>
      norm_num [chordBaseFreq, CM7, EBMAJ7, ABMAJ7, GMAJ7, DM7, FMAJ7]

/-- Every meaningful detune ratio of a reachable configuration is in (0, 2]. -/
theorem ratio_bounds (u : UnisonConfig) (h : UCReachable u) (i : ℕ)
    (hi : i < u.unisonCount) :
    0 < u.detuneRatios i ∧ u.detuneRatios i ≤ 2 := by
  obtain ⟨hcount, hbase, hratios⟩ := ucInv u h
  rw [hratios i hi]
  refine ⟨centsToRatio_pos _, centsToRatio_le_two ?_⟩
  have hc : u.unisonCount = 1 ∨ u.unisonCount = 2 ∨ u.unisonCount = 3 ∨ u.unisonCount = 4 := by
    omega
  have hb1 := hbase.1
  have hb2 := hbase.2
  rcases hc with hc | hc | hc | hc <;> rw [hc] at hi ⊢ <;> interval_cases i <;>
    simp [offsetsCents] <;> linarith

/-- With a library chord, a reachable unison configuration and the 44100 Hz
sample rate, calculatePhaseIncrements keeps every increment inside [0, 256). -/
theorem calc_incs_bound (s : ChordPlayerState) (ch : Chord) (u : UnisonConfig)
    (hc : s.currentChord = some ch) (hlib : ch ∈ chordLibrary)
    (hu : s.unisonConfig = some u) (hreach : UCReachable u)
    (hrate : s.storedSampleRate = 44100) (hold : IncBound s) :
    IncBound (calculatePhaseIncrements s) := by
  intro v
  rw [calc_incs s ch u hc hu v]
  split_ifs with hv
  · have hn1 : 1 ≤ u.unisonCount := (ucInv u hreach).1.1
    have hmod : v % u.unisonCount < u.unisonCount := Nat.mod_lt v (by omega)
    have hr := ratio_bounds u hreach (v % u.unisonCount) hmod
    have hf := chordLibrary_freq_bounds ch hlib (v / u.unisonCount)
    have hfR : (0 : ℝ) < (chordBaseFreq ch (v / u.unisonCount) : ℝ) := by
      exact_mod_cast hf.1
    have hfR2 : (chordBaseFreq ch (v / u.unisonCount) : ℝ) ≤ 1600 := by
      exact_mod_cast hf.2
    have hprod : 0 < (chordBaseFreq ch (v / u.unisonCount) : ℝ)
        * u.detuneRatios (v % u.unisonCount) := mul_pos hfR hr.1
    have hprod2 : (chordBaseFreq ch (v / u.unisonCount) : ℝ)
        * u.detuneRatios (v % u.unisonCount) ≤ 3200 := by
      calc (chordBaseFreq ch (v / u.unisonCount) : ℝ) * u.detuneRatios (v % u.unisonCount)
          ≤ 1600 * 2 := mul_le_mul hfR2 hr.2 (le_of_lt hr.1) (by norm_num)
        _ = 3200 := by norm_num
    rw [hrate]
    constructor
    · apply div_nonneg _ (by norm_num)
      nlinarith
    · rw [div_lt_iff (by norm_num : (0 : ℝ) < 44100)]
      nlinarith
  · exact hold v

/-- C3: the phases start at zero; from any state where every phase is in
[0, 512) — an invariant that holds initially — the wrapped phase used as the
table index is in [0, tableLength) and its integer truncation in [0, 255];
getNextSample preserves the invariant provided every increment is below the
table length; and increments recomputed from any library chord with a
reachable unison configuration at 44100 Hz are below the table length. -/
theorem C3_phase_index_invariant :
    PhaseInv initChordPlayer ∧
    (∀ s : ChordPlayerState, PhaseInv s →
        ∀ i, (0 ≤ wrapPhase (s.phases i) ∧ wrapPhase (s.phases i) < 256) ∧
          (0 ≤ realTruncToInt (wrapPhase (s.phases i)) ∧
            realTruncToInt (wrapPhase (s.phases i)) ≤ 255)) ∧
    (∀ (g : ℤ → ℤ → ℤ) (s : ChordPlayerState), PhaseInv s → IncBound s →
        PhaseInv (getNextSample g s).2) ∧
    (∀ (s : ChordPlayerState) (ch : Chord) (u : UnisonConfig),
        s.currentChord = some ch → ch ∈ chordLibrary → s.unisonConfig = some u →
        UCReachable u → s.storedSampleRate = 44100 → IncBound s →
        IncBound (calculatePhaseIncrements s)) := by
  refine ⟨?_, ?_, ?_, calc_incs_bound⟩
  · intro i
    constructor <;> norm_num [initChordPlayer]
  · intro s hp i
    obtain ⟨hw0, hw256⟩ := wrapPhase_mem (hp i).1 (hp i).2
    refine ⟨⟨hw0, hw256⟩, ?_, ?_⟩
    · unfold realTruncToInt
      rw [if_pos hw0]
      exact Int.le_floor.mpr (by exact_mod_cast hw0)
    · unfold realTruncToInt
      rw [if_pos hw0]
      have : ⌊wrapPhase (s.phases i)⌋ < 256 := Int.floor_lt.mpr (by exact_mod_cast hw256)
      omega
  · intro g s hp hb
    by_cases hnull : s.hasOscillator = false ∨ s.unisonConfig = none
    · rw [getNextSample_null g s hnull]
      exact hp
    · push_neg at hnull
      have hosc : s.hasOscillator = true := by
        cases hb2 : s.hasOscillator
        · exact absurd hb2 hnull.1
        · rfl
      obtain ⟨u, hu⟩ := Option.ne_none_iff_exists'.mp hnull.2
      intro j
      rw [(getNextSample_spec g s u hosc hu).2 j]
      split_ifs with hj
      · obtain ⟨hw0, hw256⟩ := wrapPhase_mem (hp j).1 (hp j).2
        constructor
        · have := (hb j).1
          linarith
        · have := (hb j).2
          linarith
      · exact hp j

/-- C3 witness: the fresh player satisfies the invariant; its phase 0 wraps to
a value in [0, 256) whose truncation is a valid table index. -/
theorem C3_witness :
    (0 ≤ wrapPhase (initChordPlayer.phases 0) ∧ wrapPhase (initChordPlayer.phases 0) < 256) ∧
    (0 ≤ realTruncToInt (wrapPhase (initChordPlayer.phases 0)) ∧
      realTruncToInt (wrapPhase (initChordPlayer.phases 0)) ≤ 255) :=
  C3_phase_index_invariant.2.1 initChordPlayer
    (fun i => by constructor <;> norm_num [initChordPlayer]) 0

/-- On every reachable configuration with a strictly positive base detune, the
meaningful ratio array has as many entries as voices, is strictly increasing,
and its middle entry equals 1 exactly when the voice count is odd. -/
theorem activeRatios_reachable (u : UnisonConfig) (h : UCReachable u)
    (hb : 0 < u.baseDetuneCents) :
    (activeRatios u).length = u.unisonCount ∧
    List.Sorted (· < ·) (activeRatios u) ∧
    ((activeRatios u).getD (u.unisonCount / 2) 0 = 1 ↔ u.unisonCount % 2 = 1) := by
  obtain ⟨⟨hn1, hn4⟩, _hbase, hr⟩ := ucInv u h
  have hlen : (activeRatios u).length = u.unisonCount := by
    simp [activeRatios]
  refine ⟨hlen, ?_⟩
  have hc : u.unisonCount = 1 ∨ u.unisonCount = 2 ∨ u.unisonCount = 3 ∨ u.unisonCount = 4 := by
    omega
  rcases hc with hc | hc | hc | hc
  · have hact : activeRatios u = [u.detuneRatios 0] := by
      unfold activeRatios
      rw [hc]
      simp [List.range_succ]
    have e0 : u.detuneRatios 0 = centsToRatio 0 := by
      have := hr 0 (by omega)
      rw [hc] at this
      simpa [offsetsCents] using this
    rw [hact, e0, hc]
    refine ⟨by simp, ?_⟩
    simp only [List.getD, Nat.reduceDiv]
    rw [centsToRatio_zero]
    simp
  · have hact : activeRatios u = [u.detuneRatios 0, u.detuneRatios 1] := by
      unfold activeRatios
      rw [hc]
      simp [List.range_succ]
    have e0 : u.detuneRatios 0 = centsToRatio (-u.baseDetuneCents) := by
      have := hr 0 (by omega)
      rw [hc] at this
      simpa [offsetsCents] using this
    have e1 : u.detuneRatios 1 = centsToRatio u.baseDetuneCents := by
      have := hr 1 (by omega)
      rw [hc] at this
      simpa [offsetsCents] using this
    rw [hact, e0, e1, hc]
    constructor
    · simp [List.sorted_cons]
      exact centsToRatio_strictMono (by linarith)
    · refine iff_of_false ?_ (by norm_num)
      show centsToRatio u.baseDetuneCents = 1 → False
      rw [centsToRatio_eq_one_iff]
      intro h0
      rw [h0] at hb
      exact lt_irrefl 0 hb
  · have hact : activeRatios u = [u.detuneRatios 0, u.detuneRatios 1, u.detuneRatios 2] := by
      unfold activeRatios
      rw [hc]
      simp [List.range_succ]
    have e0 : u.detuneRatios 0 = centsToRatio (-u.baseDetuneCents) := by
      have := hr 0 (by omega)
      rw [hc] at this
      simpa [offsetsCents] using this
    have e1 : u.detuneRatios 1 = centsToRatio 0 := by
      have := hr 1 (by omega)
      rw [hc] at this
      simpa [offsetsCents] using this
    have e2 : u.detuneRatios 2 = centsToRatio u.baseDetuneCents := by
      have := hr 2 (by omega)
      rw [hc] at this
      simpa [offsetsCents] using this
    rw [hact, e0, e1, e2, hc]
    constructor
    · simp [List.sorted_cons]
      refine ⟨⟨centsToRatio_strictMono (by linarith), centsToRatio_strictMono (by linarith)⟩,
        centsToRatio_strictMono (by linarith)⟩
    · refine iff_of_true ?_ (by norm_num)
      show List.getD [centsToRatio (-u.baseDetuneCents), centsToRatio 0,
        centsToRatio u.baseDetuneCents] (3 / 2) 0 = 1
      simp only [Nat.reduceDiv, List.getD]
      simpa using centsToRatio_zero
  · have hact : activeRatios u =
        [u.detuneRatios 0, u.detuneRatios 1, u.detuneRatios 2, u.detuneRatios 3] := by
      unfold activeRatios
      rw [hc]
      simp [List.range_succ]
    have e0 : u.detuneRatios 0 = centsToRatio (-(3 / 2 * u.baseDetuneCents)) := by
      have := hr 0 (by omega)
      rw [hc] at this
      simpa [offsetsCents] using this
    have e1 : u.detuneRatios 1 = centsToRatio (-(1 / 2 * u.baseDetuneCents)) := by
      have := hr 1 (by omega)
      rw [hc] at this
      simpa [offsetsCents] using this
    have e2 : u.detuneRatios 2 = centsToRatio (1 / 2 * u.baseDetuneCents) := by
      have := hr 2 (by omega)
      rw [hc] at this
      simpa [offsetsCents] using this
    have e3 : u.detuneRatios 3 = centsToRatio (3 / 2 * u.baseDetuneCents) := by
      have := hr 3 (by omega)
      rw [hc] at this
      simpa [offsetsCents] using this
    rw [hact, e0, e1, e2, e3, hc]
    constructor
    · simp [List.sorted_cons]
      refine ⟨⟨centsToRatio_strictMono (by linarith), centsToRatio_strictMono (by linarith),
        centsToRatio_strictMono (by linarith)⟩,
        ⟨centsToRatio_strictMono (by linarith), centsToRatio_strictMono (by linarith)⟩,
        centsToRatio_strictMono (by linarith)⟩
    · refine iff_of_false ?_ (by norm_num)
      show List.getD [centsToRatio (-(3 / 2 * u.baseDetuneCents)),
        centsToRatio (-(1 / 2 * u.baseDetuneCents)), centsToRatio (1 / 2 * u.baseDetuneCents),
        centsToRatio (3 / 2 * u.baseDetuneCents)] (4 / 2) 0 = 1 → False
      simp only [Nat.reduceDiv, List.getD]
      rw [show ([centsToRatio (-(3 / 2 * u.baseDetuneCents)),
        centsToRatio (-(1 / 2 * u.baseDetuneCents)), centsToRatio (1 / 2 * u.baseDetuneCents),
        centsToRatio (3 / 2 * u.baseDetuneCents)].get? 2) =
          some (centsToRatio (1 / 2 * u.baseDetuneCents)) from rfl]
      simp only [Option.getD_some]
      rw [centsToRatio_eq_one_iff]
      intro h0
      have : u.baseDetuneCents = 0 := by linarith
      rw [this] at hb
      exact lt_irrefl 0 hb

/-- C4 (amended): from every reachable configuration whose base detune is
strictly positive, after setting the voice count to n in {1,2,3,4} the
meaningful ratio array has exactly n entries, is strictly increasing, and its
middle entry equals 1.0 exactly when n is odd.  (With base detune 0 — also
reachable — all entries are 1.0, see the counterexample.) -/
theorem C4_detune_ratio_array (u : UnisonConfig) (n : ℤ) (hreach : UCReachable u)
    (hb : 0 < u.baseDetuneCents) (h1 : 1 ≤ n) (h4 : n ≤ 4) :
    ((setUnisonCount u n).unisonCount : ℤ) = n ∧
    (activeRatios (setUnisonCount u n)).length = (setUnisonCount u n).unisonCount ∧
    List.Sorted (· < ·) (activeRatios (setUnisonCount u n)) ∧
    ((activeRatios (setUnisonCount u n)).getD ((setUnisonCount u n).unisonCount / 2) 0 = 1 ↔
      (setUnisonCount u n).unisonCount % 2 = 1) := by
  have hreach2 : UCReachable (setUnisonCount u n) := UCReachable.count u n hreach
  have hb2 : 0 < (setUnisonCount u n).baseDetuneCents := by
    rw [setUnisonCount_base]
    exact hb
  have hcl : clampCount n = n := by
    unfold clampCount
    split_ifs <;> omega
  have hcount : ((setUnisonCount u n).unisonCount : ℤ) = n := by
    rw [setUnisonCount_count, hcl]
  obtain ⟨ha, hs, hm⟩ := activeRatios_reachable _ hreach2 hb2
  exact ⟨hcount, ha, hs, hm⟩

/-- C4 witness: from the initial configuration (7 cents detune), setting two
voices yields a 2-entry strictly increasing ratio array with no middle 1. -/
theorem C4_witness :
    ((setUnisonCount initUnisonConfig 2).unisonCount : ℤ) = 2 ∧
    (activeRatios (setUnisonCount initUnisonConfig 2)).length =
      (setUnisonCount initUnisonConfig 2).unisonCount ∧
    List.Sorted (· < ·) (activeRatios (setUnisonCount initUnisonConfig 2)) ∧
    ((activeRatios (setUnisonCount initUnisonConfig 2)).getD
        ((setUnisonCount initUnisonConfig 2).unisonCount / 2) 0 = 1 ↔
      (setUnisonCount initUnisonConfig 2).unisonCount % 2 = 1) :=
  C4_detune_ratio_array initUnisonConfig 2 UCReachable.init
    (by rw [initUnisonConfig, recalc_baseDetuneCents]; norm_num) (by norm_num) (by norm_num)

/-- The configuration reached by setBaseDetuneCents(0) followed by
setUnisonCount(2) from the initial configuration. -/
noncomputable def ucDetuneZero : UnisonConfig :=
  setUnisonCount (setBaseDetuneCents initUnisonConfig 0).1 2

/-- C4 counterexample: the base detune 0 is reachable (setBaseDetuneCents
clamps to [0,50] and accepts 0), and with two voices every ratio entry is
then 1.0 — the array is not monotonically (strictly) increasing and its middle
entry equals 1.0 although the voice count is even, refuting the claim as
stated over all reachable base-detune values. -/
theorem C4_counterexample :
    UCReachable ucDetuneZero ∧
    ucDetuneZero.unisonCount = 2 ∧
    activeRatios ucDetuneZero = [1, 1] ∧
    ¬ List.Sorted (· < ·) (activeRatios ucDetuneZero) ∧
    (activeRatios ucDetuneZero).getD (ucDetuneZero.unisonCount / 2) 0 = 1 ∧
    ucDetuneZero.unisonCount % 2 = 0 := by
  have hreach : UCReachable ucDetuneZero :=
    UCReachable.count _ 2 (UCReachable.detune _ 0 UCReachable.init)
  have hbase7 : initUnisonConfig.baseDetuneCents = 7 := by
    rw [initUnisonConfig, recalc_baseDetuneCents]
  have hcd0 : clampDetune 0 = 0 := by
    unfold clampDetune
    norm_num
  have hu1 : (setBaseDetuneCents initUnisonConfig 0).1 =
      recalculateRatios { initUnisonConfig with baseDetuneCents := clampDetune 0 } := by
    unfold setBaseDetuneCents
    rw [if_neg (by rw [hcd0, hbase7]; norm_num)]
  have hcount1 : (setBaseDetuneCents initUnisonConfig 0).1.unisonCount = 1 := by
    rw [hu1, recalc_unisonCount]
    show initUnisonConfig.unisonCount = 1
    rw [initUnisonConfig, recalc_unisonCount]
  have hbase0 : (setBaseDetuneCents initUnisonConfig 0).1.baseDetuneCents = 0 := by
    rw [hu1, recalc_baseDetuneCents]
    exact hcd0
  have hc2 : clampCount 2 = 2 := by
    unfold clampCount
    norm_num
  have hne : ¬ clampCount 2 = (((setBaseDetuneCents initUnisonConfig 0).1.unisonCount : ℕ) : ℤ) := by
    rw [hcount1, hc2]
    norm_num
  have hu2 : ucDetuneZero =
      recalculateRatios { (setBaseDetuneCents initUnisonConfig 0).1 with
        unisonCount := (clampCount 2).toNat } := by
    unfold ucDetuneZero setUnisonCount
    rw [if_neg hne]
  have hcnt2 : ucDetuneZero.unisonCount = 2 := by
    rw [hu2, recalc_unisonCount]
    show (clampCount 2).toNat = 2
    rw [hc2]
    rfl
  have hX1 : ({ (setBaseDetuneCents initUnisonConfig 0).1 with
      unisonCount := (clampCount 2).toNat } : UnisonConfig).unisonCount = 2 := by
    show (clampCount 2).toNat = 2
    rw [hc2]
    rfl
  have hXbase : ({ (setBaseDetuneCents initUnisonConfig 0).1 with
      unisonCount := (clampCount 2).toNat } : UnisonConfig).baseDetuneCents = 0 := hbase0
  have hmean := recalc_ratios_meaningful
    { (setBaseDetuneCents initUnisonConfig 0).1 with unisonCount := (clampCount 2).toNat }
    (by rw [hX1]; omega) (by rw [hX1]; omega)
  have e0 : ucDetuneZero.detuneRatios 0 = 1 := by
    rw [hu2, hmean 0 (by rw [hX1]; omega), hX1, hXbase]
    show centsToRatio ((offsetsCents 2 0).getD 0 0) = 1
    simp only [offsetsCents]
    rw [show ((([-0, 0] : List ℚ).getD 0 0 : ℚ)) = 0 from by norm_num]
    exact centsToRatio_zero
  have e1 : ucDetuneZero.detuneRatios 1 = 1 := by
    rw [hu2, hmean 1 (by rw [hX1]; omega), hX1, hXbase]
    show centsToRatio ((offsetsCents 2 0).getD 1 0) = 1
    simp only [offsetsCents]
    rw [show ((([-0, 0] : List ℚ).getD 1 0 : ℚ)) = 0 from by norm_num]
    exact centsToRatio_zero
  have hact : activeRatios ucDetuneZero = [1, 1] := by
    unfold activeRatios
    rw [hcnt2]
    simp [List.range_succ, e0, e1]
  refine ⟨hreach, hcnt2, hact, ?_, ?_, ?_⟩
  · rw [hact]
    simp [List.sorted_cons]
  · rw [hact, hcnt2]
    simp
  · rw [hcnt2]
